import Mathlib

/-!
Verification of the vgo-gateway plugin subsystem and rate limiter.

This file is a shallow embedding, in Lean 4, of the Go code of the
`vera-byte/vgo-gateway` repository: the plugin installer
(`internal/plugin/installer.go`), the packager (`internal/plugin/packager.go`),
the loader and subprocess supervisor (`internal/plugin/loader.go`), the
management HTTP handler (`api` package, `PluginHandler`), the plugin manager
(`internal/plugin/manager.go`) and the sliding-window rate limiter
(`internal/middleware/ratelimit.go`).

Strings are modelled as Lean `String`s, with the character-level operations
(splitting on underscores, the version-token regular expression) written as
structurally recursive functions over `List Char` so that every definition is
executable and kernel-reducible.  Filesystem and network effects are made
explicit: the install directory is a list of filenames, archives are
association lists from member name to content, and fallible environment steps
(process spawn, file removal) are parameters of the functions that perform
them.
-/

/-! ## Filename parsing (`installer.go`, `parsePluginInfo`) -/

/-- Parsed plugin information (`PluginInfo` in `installer.go`). -/
structure PluginInfo where
  ServiceName : String
  Platform : String
  Version : String
  Filename : String
  deriving DecidableEq, Repr

/-- Result of parsing a plugin filename.  `crash` models the Go runtime panic
that `parsePluginInfo` hits when the version token is the very first
underscore-separated part (the slice expression `parts[1:0]` is out of
bounds). -/
inductive ParseResult where
  | ok (info : PluginInfo)
  | err
  | crash
  deriving DecidableEq, Repr

/-- Consume a maximal run of decimal digits. -/
def dropDigits : List Char → List Char
  | [] => []
  | c :: cs => if c.isDigit then dropDigits cs else c :: cs

/-- Consume one or more decimal digits; `none` if the list does not start
with a digit. -/
def digitsOneOrMore : List Char → Option (List Char)
  | [] => none
  | c :: cs => if c.isDigit then some (dropDigits cs) else none

/-- Match `[0-9]+\.[0-9]+\.[0-9]+` as a leading pattern. -/
def versionCore (cs : List Char) : Bool :=
  match digitsOneOrMore cs with
  | none => false
  | some r1 =>
    match r1 with
    | '.' :: r2 =>
      match digitsOneOrMore r2 with
      | none => false
      | some r3 =>
        match r3 with
        | '.' :: r4 => (digitsOneOrMore r4).isSome
        | _ => false
    | _ => false

/-- Match the Go regular expression `^v?[0-9]+\.[0-9]+\.[0-9]+` (an
unanchored-at-the-end, leading match, as `regexp.MatchString` performs with a
`^` anchor). -/
def versionTokenMatch (cs : List Char) : Bool :=
  match cs with
  | 'v' :: rest => versionCore rest
  | _ => versionCore cs

/-- Split a character list on `'_'`, as Go's `strings.Split(name, "_")` does;
never returns the empty list. -/
def splitUnderscore : List Char → List (List Char)
  | [] => [[]]
  | c :: cs =>
    if c = '_' then [] :: splitUnderscore cs
    else
      match splitUnderscore cs with
      | [] => [[c]]
      | h :: t => (c :: h) :: t

/-- Join with `'_'`, as Go's `strings.Join(parts, "_")` does. -/
def joinUnderscore : List (List Char) → List Char
  | [] => []
  | [x] => x
  | x :: xs => x ++ '_' :: joinUnderscore xs

/-- Go's `strings.TrimSuffix(filename, ".vkp")`. -/
def trimVkpSuffix (cs : List Char) : List Char :=
  match cs.reverse with
  | 'p' :: 'k' :: 'v' :: '.' :: rest => rest.reverse
  | _ => cs

/-- Go's `strings.HasSuffix(filename, ".vkp")`. -/
def endsWithVkp (cs : List Char) : Bool :=
  match cs.reverse with
  | 'p' :: 'k' :: 'v' :: '.' :: _ => true
  | _ => false

/-- Index of the rightmost part matching the version token, i.e. the first
match of the right-to-left scan in `parsePluginInfo`. -/
def lastMatchIdx : List (List Char) → Option Nat
  | [] => none
  | p :: rest =>
    match lastMatchIdx rest with
    | some i => some (i + 1)
    | none => if versionTokenMatch p then some 0 else none

/-- `PluginInstaller.parsePluginInfo` from `installer.go`: strip the `.vkp`
suffix, split on underscores, require at least three parts, scan right-to-left
for the first part matching `^v?[0-9]+\.[0-9]+\.[0-9]+`; the first part is
the service name, the parts strictly between the first part and the version
part form the platform, and everything from the version part on is the
version.  A version index of `0` makes the Go code panic on `parts[1:0]`,
modelled by `ParseResult.crash`. -/
def parsePluginInfo (filename : String) : ParseResult :=
  let name := trimVkpSuffix filename.data
  let parts := splitUnderscore name
  if parts.length < 3 then ParseResult.err
  else
    match lastMatchIdx parts with
    | none => ParseResult.err
    | some 0 => ParseResult.crash
    | some i =>
      ParseResult.ok
        { ServiceName := String.mk (parts.headD [])
          Platform := String.mk (joinUnderscore ((parts.drop 1).take (i - 1)))
          Version := String.mk (joinUnderscore (parts.drop i))
          Filename := filename }

/-! ## Install directory model (`installer.go`, `InstallFromURL`) -/

/-- Service name a filename parses to, `none` when `parsePluginInfo` does not
succeed on it (`findPluginsByService` skips such files with a warning). -/
def serviceOf (g : String) : Option String :=
  match parsePluginInfo g with
  | ParseResult.ok info => some info.ServiceName
  | _ => none

/-- Whether parsing the filename hits the `parts[1:0]` runtime panic. -/
def isCrashParse (g : String) : Bool :=
  match parsePluginInfo g with
  | ParseResult.crash => true
  | _ => false

/-- Writing the downloaded file into the directory (`os.Create` truncates an
existing file, so the set of names gains `f` if absent). -/
def insertFile (dir : List String) (f : String) : List String :=
  if f ∈ dir then dir else dir ++ [f]

/-- One successful `InstallFromURL` call, restricted to its effect on the
install directory, for a URL whose trailing path component is `f`.  `none`
models the call not succeeding (filename does not end in `.vkp`, or the
filename parse — of the new file or of a file already in the directory —
panics).  When the new filename parses to a service, every other file of the
directory that parses to the same service is removed before `f` is written;
when it does not parse, the install proceeds with a warning and no
eviction. -/
def installStep (dir : List String) (f : String) : Option (List String) :=
  if endsWithVkp f.data = false then none
  else
    match parsePluginInfo f with
    | ParseResult.crash => none
    | ParseResult.err => some (insertFile dir f)
    | ParseResult.ok info =>
      if dir.any (fun g => isCrashParse g) then none
      else
        some (insertFile
          (dir.filter (fun g => decide (serviceOf g ≠ some info.ServiceName ∨ g = f))) f)

/-- A sequence of successful installs starting from the empty directory. -/
def runInstalls (fs : List String) : Option (List String) :=
  fs.foldlM (fun dir f => installStep dir f) []

/-- Number of files of the directory whose filename parses to service `s`. -/
def countService (dir : List String) (s : String) : Nat :=
  (dir.filter (fun g => decide (serviceOf g = some s))).length

lemma nodup_insertFile {dir : List String} {f : String} (h : dir.Nodup) :
    (insertFile dir f).Nodup := by
  unfold insertFile
  split
  · exact h
  · rename_i hf
    simp [List.nodup_append, h, hf]

lemma countService_insertFile (dir : List String) (f : String) (s : String) :
    countService (insertFile dir f) s =
      countService dir s +
        (if f ∉ dir ∧ serviceOf f = some s then 1 else 0) := by
  unfold insertFile countService
  split
  · rename_i hmem
    simp [hmem]
  · rename_i hmem
    by_cases hs : serviceOf f = some s
    · simp [List.filter_append, hs, hmem]
    · simp [List.filter_append, hs]

lemma length_le_one_of_nodup_all_eq {α : Type} {l : List α} (a : α)
    (h : l.Nodup) (he : ∀ x ∈ l, x = a) : l.length ≤ 1 := by
  match l with
  | [] => simp
  | [x] => simp
  | x :: y :: t =>
    exfalso
    have hx : x = a := he x (by simp)
    have hy : y = a := he y (by simp)
    have := List.nodup_cons.mp h
    exact this.1 (by simp [hx, hy])

/-- The invariant of the install directory: at most one parseable file per
service, plus no-duplicate-filenames (the directory is a set). -/
def dirInv (dir : List String) : Prop :=
  dir.Nodup ∧ ∀ s, countService dir s ≤ 1

lemma countService_filter_le (dir : List String) (p : String → Bool) (s : String) :
    countService (dir.filter p) s ≤ countService dir s := by
  unfold countService
  exact List.Sublist.length_le
    (List.Sublist.filter _ (List.filter_sublist dir))

lemma installStep_dirInv {dir dir' : List String} {f : String}
    (hinv : dirInv dir) (hstep : installStep dir f = some dir') : dirInv dir' := by
  unfold installStep at hstep
  split at hstep
  · exact absurd hstep (by simp)
  · split at hstep
    · exact absurd hstep (by simp)
    · -- err case: no eviction, plain write
      rename_i hparse
      have hdir : dir' = insertFile dir f := by
        simpa using hstep.symm
      subst hdir
      refine ⟨nodup_insertFile hinv.1, fun s => ?_⟩
      rw [countService_insertFile]
      have hnone : serviceOf f = none := by
        unfold serviceOf
        rw [hparse]
      have h1 := hinv.2 s
      split
      · rename_i hcond
        rw [hnone] at hcond
        exact absurd hcond.2 (by simp)
      · simpa using h1
    · -- ok case: eviction then write
      rename_i info hparse
      split at hstep
      · exact absurd hstep (by simp)
      · rename_i hnocrash
        have hdir : dir' = insertFile
            (dir.filter (fun g => decide (serviceOf g ≠ some info.ServiceName ∨ g = f))) f := by
          simpa using hstep.symm
        subst hdir
        set evicted :=
          dir.filter (fun g => decide (serviceOf g ≠ some info.ServiceName ∨ g = f)) with hev
        have hevnodup : evicted.Nodup := List.Nodup.filter _ hinv.1
        refine ⟨nodup_insertFile hevnodup, fun s => ?_⟩
        by_cases hs : s = info.ServiceName
        · -- the incoming service: all surviving parseable files are f itself
          rw [hs]
          have hall : ∀ x ∈ evicted.filter
              (fun g => decide (serviceOf g = some info.ServiceName)), x = f := by
            intro x hx
            have hx1 := List.of_mem_filter hx
            have hx2 := List.mem_of_mem_filter hx
            have hx3 := List.of_mem_filter hx2
            have hx1' : serviceOf x = some info.ServiceName := of_decide_eq_true hx1
            have hx3' : serviceOf x ≠ some info.ServiceName ∨ x = f := of_decide_eq_true hx3
            rcases hx3' with h | h
            · exact absurd hx1' h
            · exact h
          have hlen : countService evicted info.ServiceName ≤ 1 :=
            length_le_one_of_nodup_all_eq f (List.Nodup.filter _ hevnodup) hall
          rw [countService_insertFile]
          split
          · rename_i hcond
            -- f is being added: f was not in evicted, so no survivor equals f
            have hzero : countService evicted info.ServiceName = 0 := by
              by_contra hne
              have hpos : 0 < countService evicted info.ServiceName :=
                Nat.pos_of_ne_zero hne
              obtain ⟨x, hx⟩ := List.exists_mem_of_length_pos hpos
              have hxf : x = f := hall x hx
              have : x ∈ evicted := List.mem_of_mem_filter hx
              rw [hxf] at this
              exact hcond.1 this
            omega
          · omega
        · -- other services: eviction only removes, f parses to a different service
          have hle : countService evicted s ≤ countService dir s :=
            countService_filter_le dir _ s
          have hfs : serviceOf f ≠ some s := by
            unfold serviceOf
            rw [hparse]
            simp
            intro h
            exact hs h.symm
          rw [countService_insertFile]
          have h1 := hinv.2 s
          split
          · rename_i hcond
            exact absurd hcond.2 hfs
          · omega

lemma runInstalls_aux : ∀ (fs : List String) (dir₀ dir : List String),
    dirInv dir₀ →
    fs.foldlM (fun d f => installStep d f) dir₀ = some dir → dirInv dir := by
  intro fs
  induction fs with
  | nil =>
    intro dir₀ dir h hfold
    simp only [List.foldlM_nil] at hfold
    cases hfold
    exact h
  | cons f fs ih =>
    intro dir₀ dir h hfold
    simp only [List.foldlM_cons] at hfold
    cases hstep : installStep dir₀ f with
    | none => rw [hstep] at hfold; exact absurd hfold (by simp)
    | some d₁ =>
      rw [hstep] at hfold
      exact ih d₁ dir (installStep_dirInv h hstep) hfold

lemma mem_insertFile {l : List String} {f g : String} (h : g ∈ insertFile l f) :
    g ∈ l ∨ g = f := by
  unfold insertFile at h
  split at h
  · exact Or.inl h
  · simpa using h

/-- C1: for every service `s`, after any sequence of successful
`InstallFromURL` calls the install directory contains at most one `.vkp` file
whose parsed service name equals `s`; moreover a successful install of a
package whose filename parses to service `s` removes every other parseable
`.vkp` file with the same service before writing the new file, so no file of
the resulting directory other than the new one parses to `s`. -/
theorem C1_install_unique_service :
    (∀ fs dir, runInstalls fs = some dir → ∀ s, countService dir s ≤ 1) ∧
    (∀ dir f dir' info, parsePluginInfo f = ParseResult.ok info →
      installStep dir f = some dir' →
      ∀ g ∈ dir', g ≠ f → ¬ serviceOf g = some info.ServiceName) := by
  constructor
  · intro fs dir h s
    have hinv : dirInv dir := by
      refine runInstalls_aux fs [] dir ⟨List.nodup_nil, ?_⟩ h
      intro s'
      simp [countService]
    exact hinv.2 s
  · intro dir f dir' info hparse hstep g hg hgf
    unfold installStep at hstep
    split at hstep
    · exact absurd hstep (by simp)
    · split at hstep
      · rename_i hcr
        rw [hparse] at hcr
        exact absurd hcr (by simp)
      · rename_i herr
        rw [hparse] at herr
        exact absurd herr (by simp)
      · rename_i info' hok
        rw [hparse] at hok
        injection hok with hinfo
        rw [← hinfo] at hstep
        split at hstep
        · exact absurd hstep (by simp)
        · have hdir : dir' = insertFile
              (dir.filter (fun x => decide (serviceOf x ≠ some info.ServiceName ∨ x = f))) f := by
            simpa using hstep.symm
          rw [hdir] at hg
          rcases mem_insertFile hg with hmem | hgf'
          · have hkeep := List.of_mem_filter hmem
            have hkeep' : serviceOf g ≠ some info.ServiceName ∨ g = f :=
              of_decide_eq_true hkeep
            rcases hkeep' with h | h
            · exact h
            · exact absurd h hgf
          · exact absurd hgf' hgf

/-- Witness for C1: installing `v1.0.0` then `v1.0.1` of service `svc`
succeeds and leaves a single file of that service. -/
theorem C1_install_unique_service_witness :
    runInstalls ["svc_linux_amd64_v1.0.0.vkp", "svc_linux_amd64_v1.0.1.vkp"] =
      some ["svc_linux_amd64_v1.0.1.vkp"] ∧
    countService ["svc_linux_amd64_v1.0.1.vkp"] "svc" ≤ 1 := by
  refine ⟨by decide, ?_⟩
  exact C1_install_unique_service.1
    ["svc_linux_amd64_v1.0.0.vkp", "svc_linux_amd64_v1.0.1.vkp"]
    ["svc_linux_amd64_v1.0.1.vkp"] (by decide) "svc"

/-! ## The right-to-left version scan (claim C4) -/

lemma lastMatchIdx_none {l : List (List Char)} (h : lastMatchIdx l = none) :
    ∀ p ∈ l, versionTokenMatch p = false := by
  induction l with
  | nil => simp
  | cons p rest ih =>
    rw [lastMatchIdx] at h
    cases hrest : lastMatchIdx rest with
    | some i =>
      rw [hrest] at h
      simp at h
    | none =>
      rw [hrest] at h
      by_cases hp : versionTokenMatch p
      · simp [hp] at h
      · intro q hq
        rcases List.mem_cons.mp hq with hqp | hqrest
        · rw [hqp]
          simpa using hp
        · exact ih hrest q hqrest

/-- The rightmost matching part: `lastMatchIdx l = some i` decomposes `l` as
a prefix of length `i`, the matching part, and a suffix with no match —
exactly the first hit of the right-to-left walk. -/
lemma lastMatchIdx_decomp {l : List (List Char)} {i : Nat}
    (h : lastMatchIdx l = some i) :
    ∃ pre x suf, l = pre ++ x :: suf ∧ pre.length = i ∧
      versionTokenMatch x = true ∧ ∀ y ∈ suf, versionTokenMatch y = false := by
  induction l generalizing i with
  | nil => exact absurd h (by simp [lastMatchIdx])
  | cons p rest ih =>
    rw [lastMatchIdx] at h
    cases hrest : lastMatchIdx rest with
    | some k =>
      rw [hrest] at h
      simp at h
      obtain ⟨pre, x, suf, hdec, hlen, hx, hsuf⟩ := ih hrest
      refine ⟨p :: pre, x, suf, by simp [hdec], ?_, hx, hsuf⟩
      simp [hlen, h]
    | none =>
      rw [hrest] at h
      by_cases hp : versionTokenMatch p
      · simp [hp] at h
        exact ⟨[], p, rest, rfl, by simp [← h], by simpa using hp,
          lastMatchIdx_none hrest⟩
      · simp [hp] at h

lemma take_drop_between {α : Type} (pre : List α) (x : α) (suf : List α) (i : Nat)
    (hlen : pre.length = i) (hi : 1 ≤ i) :
    ((pre ++ x :: suf).drop 1).take (i - 1) = pre.drop 1 := by
  rw [List.drop_append_eq_append_drop]
  have h2 : 1 - pre.length = 0 := by omega
  rw [h2, List.drop_zero, List.take_append_eq_append_take]
  have h3 : (pre.drop 1).length = i - 1 := by simp [hlen]
  rw [h3, Nat.sub_self, List.take_zero, List.append_nil]
  exact List.take_of_length_le (le_of_eq h3)

lemma drop_at_version {α : Type} (pre : List α) (x : α) (suf : List α) (i : Nat)
    (hlen : pre.length = i) :
    (pre ++ x :: suf).drop i = x :: suf := by
  rw [List.drop_append_eq_append_drop]
  have h1 : pre.drop i = [] := List.drop_eq_nil_of_le (by omega)
  have h2 : i - pre.length = 0 := by omega
  rw [h1, h2, List.drop_zero, List.nil_append]

/-- C4: filename parsing walks the underscore-separated parts right-to-left
for the first part matching `^v?[0-9]+\.[0-9]+\.[0-9]+` (a leading match),
takes the first part as the service and the parts between as the platform:
whenever the parse succeeds, the parts decompose as `pre ++ v :: suf` where
`v` is the version token, nothing to its right matches, the service is the
first part, the platform is `pre` without its first element and the version
joins `v` with the suffix.  The boundary examples
`foo_linux_amd64_v1.0.0.vkp` and `foo_linux_amd64_v10.20.30-rc1.vkp` parse
as stated. -/
theorem C4_parse_examples_and_walk :
    (parsePluginInfo "foo_linux_amd64_v1.0.0.vkp" = ParseResult.ok
      { ServiceName := "foo", Platform := "linux_amd64", Version := "v1.0.0",
        Filename := "foo_linux_amd64_v1.0.0.vkp" }) ∧
    (parsePluginInfo "foo_linux_amd64_v10.20.30-rc1.vkp" = ParseResult.ok
      { ServiceName := "foo", Platform := "linux_amd64",
        Version := "v10.20.30-rc1",
        Filename := "foo_linux_amd64_v10.20.30-rc1.vkp" }) ∧
    (∀ f info, parsePluginInfo f = ParseResult.ok info →
      ∃ pre v suf,
        splitUnderscore (trimVkpSuffix f.data) = pre ++ v :: suf ∧
        1 ≤ pre.length ∧
        versionTokenMatch v = true ∧
        (∀ y ∈ suf, versionTokenMatch y = false) ∧
        info.ServiceName = String.mk ((pre ++ v :: suf).headD []) ∧
        info.Platform = String.mk (joinUnderscore (pre.drop 1)) ∧
        info.Version = String.mk (joinUnderscore (v :: suf))) := by
  refine ⟨by decide, by decide, ?_⟩
  intro f info h
  simp only [parsePluginInfo] at h
  split at h
  · exact absurd h (by simp)
  · split at h
    · exact absurd h (by simp)
    · exact absurd h (by simp)
    · rename_i i hne heq
      have hi : 1 ≤ i := Nat.pos_of_ne_zero hne
      obtain ⟨pre, x, suf, hdec, hlen, hx, hsuf⟩ := lastMatchIdx_decomp heq
      injection h with h'
      refine ⟨pre, x, suf, hdec, by omega, hx, hsuf, ?_, ?_, ?_⟩
      · rw [← h']
        simp only []
        rw [hdec]
      · rw [← h']
        simp only []
        rw [hdec, take_drop_between pre x suf i hlen hi]
      · rw [← h']
        simp only []
        rw [hdec, drop_at_version pre x suf i hlen]

/-- Witness for C4's general clause at the concrete boundary filename. -/
theorem C4_parse_examples_and_walk_witness :
    ∃ pre v suf,
      splitUnderscore (trimVkpSuffix ("foo_linux_amd64_v1.0.0.vkp" : String).data) =
        pre ++ v :: suf ∧
      1 ≤ pre.length ∧
      versionTokenMatch v = true ∧
      (∀ y ∈ suf, versionTokenMatch y = false) ∧
      ("foo" : String) = String.mk ((pre ++ v :: suf).headD []) ∧
      ("linux_amd64" : String) = String.mk (joinUnderscore (pre.drop 1)) ∧
      ("v1.0.0" : String) = String.mk (joinUnderscore (v :: suf)) := by
  have h := C4_parse_examples_and_walk.2.2 "foo_linux_amd64_v1.0.0.vkp"
    { ServiceName := "foo", Platform := "linux_amd64", Version := "v1.0.0",
      Filename := "foo_linux_amd64_v1.0.0.vkp" } (by decide)
  simpa using h

/-! ## Sliding-window rate limiter (`ratelimit.go`)

Timestamps are modelled as integers (an abstract clock).  The per-key Go map
`map[string][]time.Time` becomes an association list; the Redis sorted set of
the remote backend becomes an association list from member to score, where
the Lua member string `now .. ':' .. i` is modelled by the pair `(now, i)`
that it prints. -/

/-- Go map read `m.requests[key]` (with `exists` flag via `Option`). -/
def lookupKey {α : Type} : List (String × α) → String → Option α
  | [], _ => none
  | (k, v) :: rest, key => if k = key then some v else lookupKey rest key

/-- Go map write `m.requests[key] = v`. -/
def setKey {α : Type} : List (String × α) → String → α → List (String × α)
  | [], key, v => [(key, v)]
  | (k, w) :: rest, key, v =>
    if k = key then (k, v) :: rest else (k, w) :: setKey rest key v

/-- Go map delete `delete(m.requests, key)`. -/
def delKey {α : Type} (m : List (String × α)) (key : String) : List (String × α) :=
  m.filter (fun p => decide (p.1 ≠ key))

/-- `MemoryRateLimiter` from `ratelimit.go`: limit, window and the per-key
recorded timestamps.  The struct has no mutex field. -/
structure MemoryRateLimiter where
  limit : Int
  window : Int
  requests : List (String × List Int)
  deriving DecidableEq, Repr

/-- `MemoryRateLimiter.AllowN`: evict the timestamps of `key` that are not
strictly after `now - window` (when the key is present), compare the
remaining count plus `n` against the limit, and on success append `n` copies
of `now`.  Returns the new state and the boolean decision (the Go error is
always `nil`). -/
def memAllowN (m : MemoryRateLimiter) (key : String) (n : Int) (now : Int) :
    MemoryRateLimiter × Bool :=
  let windowStart := now - m.window
  let requests1 :=
    match lookupKey m.requests key with
    | some reqs =>
      setKey m.requests key (reqs.filter (fun t => decide (windowStart < t)))
    | none => m.requests
  let currentCount := ((lookupKey requests1 key).getD []).length
  if m.limit < (currentCount : Int) + n then
    ({ m with requests := requests1 }, false)
  else
    let appended := ((lookupKey requests1 key).getD []) ++ List.replicate n.toNat now
    ({ m with requests := setKey requests1 key appended }, true)

/-- `MemoryRateLimiter.Allow` delegates to `AllowN` with `n = 1`. -/
def memAllow (m : MemoryRateLimiter) (key : String) (now : Int) :
    MemoryRateLimiter × Bool :=
  memAllowN m key 1 now

/-- `MemoryRateLimiter.Reset`: delete the key, return `nil`. -/
def memReset (m : MemoryRateLimiter) (key : String) : MemoryRateLimiter :=
  { m with requests := delKey m.requests key }

/-- `MemoryRateLimiter.GetRemaining`: evict, persist the eviction and return
`limit - len(valid)` (no clamping at zero in the memory backend). -/
def memGetRemaining (m : MemoryRateLimiter) (key : String) (now : Int) :
    MemoryRateLimiter × Int :=
  let windowStart := now - m.window
  match lookupKey m.requests key with
  | some reqs =>
    let valid := reqs.filter (fun t => decide (windowStart < t))
    ({ m with requests := setKey m.requests key valid },
      m.limit - (valid.length : Int))
  | none => (m, m.limit)

/-- `ZREMRANGEBYSCORE key 0 windowStart`: drop members whose score lies in
the inclusive range `[0, windowStart]`. -/
def zremrangebyscore (zs : List ((Int × Nat) × Int)) (lo hi : Int) :
    List ((Int × Nat) × Int) :=
  zs.filter (fun p => decide (¬(lo ≤ p.2 ∧ p.2 ≤ hi)))

/-- `ZADD key score member`: update the member's score, or insert it. -/
def zadd : List ((Int × Nat) × Int) → (Int × Nat) → Int → List ((Int × Nat) × Int)
  | [], member, score => [(member, score)]
  | (m, s) :: rest, member, score =>
    if m = member then (m, score) :: rest else (m, s) :: zadd rest member score

/-- The Lua script of `RedisRateLimiter.AllowN`: evict scores in
`[0, windowStart]`, compare `ZCARD` plus `n` against the limit, and on
success `ZADD` the members `(now, 1) … (now, n)` at score `now` (the `EXPIRE`
safety net does not affect the returned decision or the member set within
the window and is not modelled). -/
def redisAllowN (limit window : Int) (zs : List ((Int × Nat) × Int))
    (n : Int) (now : Int) : Bool × List ((Int × Nat) × Int) :=
  let windowStart := now - window
  let zs1 := zremrangebyscore zs 0 windowStart
  let current := zs1.length
  if limit < (current : Int) + n then (false, zs1)
  else
    (true,
      (List.range n.toNat).foldl (fun z i => zadd z (now, i + 1) now) zs1)

lemma lookupKey_setKey {α : Type} (m : List (String × α)) (k : String)
    (v : α) (k' : String) :
    lookupKey (setKey m k v) k' = if k = k' then some v else lookupKey m k' := by
  induction m with
  | nil =>
    by_cases h : k = k' <;> simp [setKey, lookupKey, h]
  | cons p rest ih =>
    obtain ⟨pk, pv⟩ := p
    by_cases hpk : pk = k <;> by_cases h : pk = k' <;> by_cases h2 : k = k' <;>
      simp_all [setKey, lookupKey]

lemma lookupKey_delKey {α : Type} (m : List (String × α)) (k k' : String) :
    lookupKey (delKey m k) k' = if k = k' then none else lookupKey m k' := by
  induction m with
  | nil =>
    by_cases h : k = k' <;> simp [delKey, lookupKey, h]
  | cons p rest ih =>
    obtain ⟨pk, pv⟩ := p
    by_cases hpk : pk = k <;> by_cases h : pk = k' <;> by_cases h2 : k = k' <;>
      simp_all [delKey, lookupKey, List.filter_cons]

/-- Timestamps of `key` surviving the eviction of `AllowN`/`GetRemaining` at
time `now`: exactly those strictly after `now - window`. -/
def memKept (m : MemoryRateLimiter) (key : String) (now : Int) : List Int :=
  ((lookupKey m.requests key).getD []).filter
    (fun t => decide (now - m.window < t))

/-- Members surviving the remote script's eviction at time `now`. -/
def redisKept (W : Int) (zs : List ((Int × Nat) × Int)) (now : Int) :
    List ((Int × Nat) × Int) :=
  zremrangebyscore zs 0 (now - W)

lemma zadd_of_not_mem (z : List ((Int × Nat) × Int)) (member : Int × Nat)
    (score : Int) (h : ∀ p ∈ z, p.1 ≠ member) :
    zadd z member score = z ++ [(member, score)] := by
  induction z with
  | nil => simp [zadd]
  | cons p rest ih =>
    obtain ⟨pm, ps⟩ := p
    have hp : pm ≠ member := h (pm, ps) (by simp)
    rw [zadd, if_neg hp, List.cons_append,
      ih (fun q hq => h q (List.mem_cons_of_mem _ hq))]

lemma range_foldl_zadd (now : Int) (cnt : Nat) (z : List ((Int × Nat) × Int))
    (hz : ∀ p ∈ z, p.1.1 ≠ now) :
    (List.range cnt).foldl (fun acc i => zadd acc (now, i + 1) now) z =
      z ++ (List.range cnt).map (fun i => ((now, i + 1), now)) := by
  induction cnt with
  | zero => simp
  | succ c ih =>
    rw [List.range_succ, List.foldl_append, ih]
    simp only [List.foldl_cons, List.foldl_nil]
    rw [zadd_of_not_mem]
    · rw [List.map_append, List.append_assoc]
      simp
    · intro p hp
      rcases List.mem_append.mp hp with hpz | hpm
      · intro he
        exact hz p hpz (by rw [he])
      · obtain ⟨i, hi, hpe⟩ := List.mem_map.mp hpm
        rw [← hpe]
        intro he
        have hi' : i < c := List.mem_range.mp hi
        have h2 : i + 1 = c + 1 := by
          have := congrArg Prod.snd he
          simpa using this
        omega

/-- The requests map after the eviction phase of `AllowN` at time `now`:
rewritten only when the key is present. -/
def evictKey (m : MemoryRateLimiter) (key : String) (now : Int) :
    List (String × List Int) :=
  match lookupKey m.requests key with
  | some _ => setKey m.requests key (memKept m key now)
  | none => m.requests

lemma lookupKey_evictKey (m : MemoryRateLimiter) (key : String) (now : Int)
    (k' : String) :
    lookupKey (evictKey m key now) k' =
      if key = k' then (lookupKey m.requests key).map (fun _ => memKept m key now)
      else lookupKey m.requests k' := by
  cases h : lookupKey m.requests key with
  | none =>
    by_cases hk : key = k'
    · subst hk
      simp [evictKey, h]
    · simp [evictKey, h, hk]
  | some reqs =>
    by_cases hk : key = k'
    · subst hk
      simp [evictKey, h, lookupKey_setKey]
    · simp [evictKey, h, lookupKey_setKey, hk]

lemma memAllowN_eq (m : MemoryRateLimiter) (key : String) (n now : Int) :
    memAllowN m key n now =
      if m.limit < ((memKept m key now).length : Int) + n then
        ({ m with requests := evictKey m key now }, false)
      else
        let app := memKept m key now ++ List.replicate n.toNat now
        ({ m with requests := setKey (evictKey m key now) key app }, true) := by
  cases h : lookupKey m.requests key with
  | none => simp [memAllowN, evictKey, h, memKept]
  | some reqs => simp [memAllowN, evictKey, h, memKept, lookupKey_setKey]

/-- C2 (amended): `AllowN(k, n)` first deletes the recorded timestamps of `k`
that are less than **or equal to** `windowStart = now - W` — a timestamp equal
to `windowStart` is deleted, not kept (the memory backend keeps exactly the
strictly greater ones, the remote script removes every score in
`[0, windowStart]`).  Then, with `c` the remaining count, it returns
`(false, nil)` with only the eviction applied when `c + n > L`, and otherwise
records `n` entries of value `now` and returns `(true, nil)` — in the remote
backend the new entries are the members `(now, 1) … (now, n)`, which append
`n` fresh members whenever no surviving member stems from the same second.
Other keys are never touched. -/
theorem C2_allowN_eviction_and_decision
    (m : MemoryRateLimiter) (key : String) (n now : Int)
    (L W : Int) (zs : List ((Int × Nat) × Int)) :
    ((∀ t ∈ (lookupKey m.requests key).getD [],
        (t ∈ memKept m key now ↔ now - m.window < t)) ∧
     ((memAllowN m key n now).2 = true ↔
        ((memKept m key now).length : Int) + n ≤ m.limit) ∧
     (m.limit < ((memKept m key now).length : Int) + n →
        lookupKey (memAllowN m key n now).1.requests key =
          (lookupKey m.requests key).map (fun _ => memKept m key now)) ∧
     (((memKept m key now).length : Int) + n ≤ m.limit →
        lookupKey (memAllowN m key n now).1.requests key =
          some (memKept m key now ++ List.replicate n.toNat now)) ∧
     (∀ k', k' ≠ key →
        lookupKey (memAllowN m key n now).1.requests k' =
          lookupKey m.requests k')) ∧
    ((∀ p ∈ zs, (p ∈ redisKept W zs now ↔ ¬(0 ≤ p.2 ∧ p.2 ≤ now - W))) ∧
     ((redisAllowN L W zs n now).1 = true ↔
        ((redisKept W zs now).length : Int) + n ≤ L) ∧
     (L < ((redisKept W zs now).length : Int) + n →
        (redisAllowN L W zs n now).2 = redisKept W zs now) ∧
     (((redisKept W zs now).length : Int) + n ≤ L →
        (∀ p ∈ redisKept W zs now, p.1.1 ≠ now) →
        (redisAllowN L W zs n now).2 =
          redisKept W zs now ++
            (List.range n.toNat).map (fun i => ((now, i + 1), now)))) := by
  refine ⟨⟨?_, ?_, ?_, ?_, ?_⟩, ?_, ?_, ?_, ?_⟩
  · intro t ht
    simp only [memKept, List.mem_filter, decide_eq_true_eq]
    constructor
    · intro h
      exact h.2
    · intro h
      exact ⟨ht, h⟩
  · rw [memAllowN_eq]
    by_cases hc : m.limit < ((memKept m key now).length : Int) + n
    · simp only [hc, if_true]
      constructor
      · intro h
        exact absurd h (by simp)
      · intro h
        exact absurd hc (by omega)
    · simp only [hc, if_false]
      constructor
      · intro _
        omega
      · intro _
        trivial
  · intro hc
    rw [memAllowN_eq]
    simp only [hc, if_true]
    rw [lookupKey_evictKey]
    simp
  · intro hc
    have hc' : ¬ m.limit < ((memKept m key now).length : Int) + n := by omega
    rw [memAllowN_eq]
    simp only [hc', if_false]
    rw [lookupKey_setKey]
    simp
  · intro k' hk'
    have hkk : ¬ key = k' := fun he => hk' he.symm
    rw [memAllowN_eq]
    by_cases hc : m.limit < ((memKept m key now).length : Int) + n
    · simp only [hc, if_true]
      rw [lookupKey_evictKey, if_neg hkk]
    · simp only [hc, if_false]
      rw [lookupKey_setKey, if_neg hkk, lookupKey_evictKey, if_neg hkk]
  · intro p hp
    simp only [redisKept, zremrangebyscore, List.mem_filter, decide_eq_true_eq]
    constructor
    · intro h
      exact h.2
    · intro h
      exact ⟨hp, h⟩
  · rw [redisAllowN]
    simp only [redisKept]
    by_cases hc : L <
        ((zremrangebyscore zs 0 (now - W)).length : Int) + n
    · simp only [hc, if_true]
      constructor
      · intro h
        exact absurd h (by simp)
      · intro h
        omega
    · simp only [hc, if_false]
      constructor
      · intro _
        omega
      · intro _
        trivial
  · intro hc
    rw [redisAllowN]
    simp only [redisKept] at hc
    simp only [hc, if_true]
    rfl
  · intro hc hfresh
    have hc' : ¬ L < ((redisKept W zs now).length : Int) + n := by omega
    rw [redisAllowN]
    simp only [redisKept] at hc'
    simp only [hc', if_false]
    exact range_foldl_zadd now n.toNat (zremrangebyscore zs 0 (now - W))
      (by simpa [redisKept, zremrangebyscore] using hfresh)

/-- Counterexample to C2 as stated: with limit 5, window 10 and `now = 100`,
the recorded timestamp `90` equals `windowStart` and the claim says it is
kept, yet both backends delete it. -/
theorem C2_boundary_counterexample :
    (lookupKey
        (memAllowN { limit := 5, window := 10, requests := [("k", [90])] }
          "k" 1 100).1.requests "k" = some [100]) ∧
    (90 : Int) ∉
      ((lookupKey
          (memAllowN { limit := 5, window := 10, requests := [("k", [90])] }
            "k" 1 100).1.requests "k").getD []) ∧
    (redisAllowN 5 10 [((90, 1), 90)] 1 100).2 = [((100, 1), 100)] := by
  refine ⟨by decide, by decide, by decide⟩

/-- Witness for C2 (amended) at a concrete input: with limit 5 and window 10,
an `AllowN` of one permit at time 100 over recorded stamps 95, 90, 99 evicts
90, is allowed, and appends 100. -/
theorem C2_allowN_eviction_and_decision_witness :
    ((2 : Int) + 1 ≤ 5) ∧
    lookupKey
        (memAllowN { limit := 5, window := 10, requests := [("k", [95, 90, 99])] }
          "k" 1 100).1.requests "k" =
      some ([95, 99] ++ List.replicate (1 : Int).toNat 100) := by
  refine ⟨by decide, ?_⟩
  have h := (C2_allowN_eviction_and_decision
    { limit := 5, window := 10, requests := [("k", [95, 90, 99])] }
    "k" 1 100 5 10 []).1.2.2.2.1 (by decide)
  simpa using h

/-! ## Rate limiter state machine (claim C3) -/

/-- One external call against the in-memory limiter (the serialized
interface: `Allow`, `AllowN`, `Reset`, `GetRemaining`), with the call time
attached where the Go code reads `time.Now()`. -/
inductive LimiterOp where
  | allow (key : String) (now : Int)
  | allowN (key : String) (n : Int) (now : Int)
  | reset (key : String)
  | getRemaining (key : String) (now : Int)

/-- Serial application of one call to the limiter state. -/
def applyOp (m : MemoryRateLimiter) : LimiterOp → MemoryRateLimiter
  | LimiterOp.allow key now => (memAllow m key now).1
  | LimiterOp.allowN key n now => (memAllowN m key n now).1
  | LimiterOp.reset key => memReset m key
  | LimiterOp.getRemaining key now => (memGetRemaining m key now).1

/-- `NewMemoryRateLimiter`: empty request map. -/
def initLimiter (limit window : Int) : MemoryRateLimiter :=
  { limit := limit, window := window, requests := [] }

/-- A state reached by a serial sequence of external calls. -/
def runOps (limit window : Int) (ops : List LimiterOp) : MemoryRateLimiter :=
  ops.foldl applyOp (initLimiter limit window)

/-- Inductive invariant: the total stored count of every key is at most the
limit. -/
def limInv (m : MemoryRateLimiter) : Prop :=
  ∀ key, (((lookupKey m.requests key).getD []).length : Int) ≤ m.limit

lemma applyOp_fields (m : MemoryRateLimiter) (op : LimiterOp) :
    (applyOp m op).limit = m.limit ∧ (applyOp m op).window = m.window := by
  cases op with
  | allow key now =>
    show (memAllowN m key 1 now).1.limit = m.limit ∧
      (memAllowN m key 1 now).1.window = m.window
    rw [memAllowN_eq]
    split <;> exact ⟨rfl, rfl⟩
  | allowN key n now =>
    show (memAllowN m key n now).1.limit = m.limit ∧
      (memAllowN m key n now).1.window = m.window
    rw [memAllowN_eq]
    split <;> exact ⟨rfl, rfl⟩
  | reset key => exact ⟨rfl, rfl⟩
  | getRemaining key now =>
    cases h : lookupKey m.requests key with
    | none =>
      constructor <;> simp [applyOp, memGetRemaining, h]
    | some reqs =>
      constructor <;> simp [applyOp, memGetRemaining, h]

lemma memKept_length_le (m : MemoryRateLimiter) (key : String) (now : Int) :
    (memKept m key now).length ≤
      ((lookupKey m.requests key).getD []).length :=
  List.length_filter_le _ _

lemma limInv_memAllowN {m : MemoryRateLimiter} (h : limInv m)
    (key : String) (n now : Int) : limInv (memAllowN m key n now).1 := by
  intro k
  have horig := h key
  have hkept := memKept_length_le m key now
  rw [memAllowN_eq]
  by_cases hc : m.limit < ((memKept m key now).length : Int) + n
  · simp only [hc, if_true]
    by_cases hk : key = k
    · subst hk
      rw [lookupKey_evictKey, if_pos rfl]
      cases hl : lookupKey m.requests key with
      | none => simpa using le_trans (by exact_mod_cast Nat.zero_le _) horig
      | some reqs =>
        simp only [Option.map]
        have : ((memKept m key now).length : Int) ≤
            (((lookupKey m.requests key).getD []).length : Int) := by
          exact_mod_cast hkept
        simpa using le_trans this horig
    · rw [lookupKey_evictKey, if_neg hk]
      exact h k
  · simp only [hc, if_false]
    by_cases hk : key = k
    · subst hk
      rw [lookupKey_setKey, if_pos rfl]
      simp only [Option.getD_some, List.length_append, List.length_replicate]
      omega
    · rw [lookupKey_setKey, if_neg hk, lookupKey_evictKey, if_neg hk]
      exact h k

lemma limInv_applyOp {m : MemoryRateLimiter} (hL : 0 ≤ m.limit)
    (h : limInv m) (op : LimiterOp) : limInv (applyOp m op) := by
  cases op with
  | allow key now => exact limInv_memAllowN h key 1 now
  | allowN key n now => exact limInv_memAllowN h key n now
  | reset key =>
    intro k
    show (((lookupKey (delKey m.requests key) k).getD []).length : Int) ≤ _
    rw [lookupKey_delKey]
    by_cases hk : key = k
    · simpa [hk] using hL
    · simp only [hk, if_false]
      exact h k
  | getRemaining key now =>
    intro k
    simp only [applyOp]
    cases hl : lookupKey m.requests key with
    | none =>
      simp only [memGetRemaining, hl]
      exact h k
    | some reqs =>
      simp only [memGetRemaining, hl]
      rw [lookupKey_setKey]
      by_cases hk : key = k
      · rw [if_pos hk]
        simp only [Option.getD_some]
        have h1 : (reqs.filter (fun t => decide (now - m.window < t))).length ≤
            reqs.length := List.length_filter_le _ _
        have h2 := h key
        rw [hl] at h2
        simp only [Option.getD_some] at h2
        have h3 : ((reqs.filter (fun t => decide (now - m.window < t))).length : Int) ≤
            (reqs.length : Int) := by exact_mod_cast h1
        exact le_trans h3 h2
      · rw [if_neg hk]
        exact h k

lemma foldl_limInv : ∀ (ops : List LimiterOp) (m : MemoryRateLimiter),
    0 ≤ m.limit → limInv m →
    limInv (ops.foldl applyOp m) ∧ (ops.foldl applyOp m).limit = m.limit := by
  intro ops
  induction ops with
  | nil =>
    intro m h0 h
    exact ⟨h, rfl⟩
  | cons op rest ih =>
    intro m h0 h
    simp only [List.foldl_cons]
    have hf := applyOp_fields m op
    have hrec := ih (applyOp m op) (hf.1 ▸ h0) (limInv_applyOp h0 h op)
    exact ⟨hrec.1, hrec.2.trans hf.1⟩

/-- C3: for every key, in any limiter state reachable by a serial sequence of
`Allow`/`AllowN`/`Reset`/`GetRemaining` calls (from a fresh limiter with
nonnegative limit `L`), the number of recorded timestamps lying within the
last `W` seconds of any observation instant `t` never exceeds `L`. -/
theorem C3_window_count_never_exceeds_limit (L W : Int) (hL : 0 ≤ L)
    (ops : List LimiterOp) (key : String) (t : Int) :
    ((((lookupKey (runOps L W ops).requests key).getD []).filter
        (fun x => decide (t - W < x ∧ x ≤ t))).length : Int) ≤ L := by
  have hinit : limInv (initLimiter L W) := by
    intro k
    simpa [initLimiter, lookupKey] using hL
  have h := foldl_limInv ops (initLimiter L W) (by simpa [initLimiter] using hL) hinit
  have hlen := h.1 key
  rw [h.2] at hlen
  exact le_trans (by exact_mod_cast List.length_filter_le _ _) hlen

/-- Witness for C3: limit 2, window 10, three `Allow` calls on key `k`. -/
theorem C3_window_count_never_exceeds_limit_witness :
    ((0 : Int) ≤ 2) ∧
    ((((lookupKey (runOps 2 10 [LimiterOp.allow "k" 0, LimiterOp.allow "k" 1,
          LimiterOp.allow "k" 2]).requests "k").getD []).filter
        (fun x => decide (2 - 10 < x ∧ x ≤ 2))).length : Int) ≤ 2 :=
  ⟨by decide,
    C3_window_count_never_exceeds_limit 2 10 (by decide)
      [LimiterOp.allow "k" 0, LimiterOp.allow "k" 1, LimiterOp.allow "k" 2]
      "k" 2⟩

/-! ## Plugin metadata and the `.vkp` package (`interface.go`, `packager.go`,
`loader.go`) -/

/-- `PluginMetadata` from `interface.go`.  The free-form `config_schema`
mapping is modelled as an association list of displayable entries. -/
structure PluginMetadata where
  Name : String
  Version : String
  Description : String
  Author : String
  License : String
  Dependencies : List String
  APIVersion : String
  MinGatewayVersion : String
  Standalone : Bool
  ConfigSchema : List (String × String)
  deriving DecidableEq, Repr

/-- Content of an archive member or extracted file: raw bytes, or the JSON
serialization of a metadata value (Go's `encoding/json` faithfully
round-trips the `PluginMetadata` struct, so the serialized text is modelled
by the value it denotes). -/
inductive FileData where
  | bytes (bs : List Nat)
  | metaJson (meta : PluginMetadata)
  deriving DecidableEq, Repr

/-- `createMetadataFile`: default the API version to `"v1"` when empty (the
`nil`-pointer default metadata is not reachable from the claims considered
here, where a metadata value is always supplied). -/
def normalizeMetadata (meta : PluginMetadata) : PluginMetadata :=
  if meta.APIVersion = "" then { meta with APIVersion := "v1" } else meta

/-- `VKPPackager.createVKPPackage`: the produced gzip+tar archive contains
the compiled binary under member name `plugin`, the serialized metadata under
member name `metadata.json`, and the configured include files under their
base names. -/
def createVKPPackage (meta : PluginMetadata) (binary : List Nat)
    (includeFiles : List (String × FileData)) : List (String × FileData) :=
  ("plugin", FileData.bytes binary) ::
    ("metadata.json", FileData.metaJson (normalizeMetadata meta)) :: includeFiles

/-- `VKPLoader.extractVKP` materializes every regular member of the archive
into the extraction directory, keyed by member name. -/
def extractVKP (archive : List (String × FileData)) : List (String × FileData) :=
  archive

/-- `VKPLoader.readPluginMetadata`: read `<dir>/plugin.json` and decode it;
`none` when the file is missing or does not hold metadata JSON. -/
def readPluginMetadata (extractDir : List (String × FileData)) :
    Option PluginMetadata :=
  match lookupKey extractDir "plugin.json" with
  | some (FileData.metaJson meta) => some meta
  | _ => none

/-! ## The supervisor (`VKPPlugin`) and the loader map (`loader.go`) -/

/-- A child-process handle (`exec.Cmd`): `Process` is populated only once
`Start` succeeds. -/
structure Cmd where
  Process : Option Nat
  deriving DecidableEq, Repr

/-- `VKPPlugin`: the supervisor wrapper around an extracted executable. -/
structure VKPPlugin where
  execPath : String
  metadata : Option PluginMetadata
  cmd : Option Cmd
  deriving DecidableEq, Repr

/-- Split on `'/'`, for `filepath.Base`. -/
def splitSlash : List Char → List (List Char)
  | [] => [[]]
  | c :: cs =>
    if c = '/' then [] :: splitSlash cs
    else
      match splitSlash cs with
      | [] => [[c]]
      | h :: t => (c :: h) :: t

/-- Go's `filepath.Base`: the last path element after trimming trailing
slashes; `"."` for the empty path, `"/"` for all-slash paths. -/
def filepathBase (s : String) : String :=
  if s = "" then "."
  else
    match ((splitSlash s.data).filter (fun p => decide (p ≠ []))).getLast? with
    | some p => String.mk p
    | none => "/"

/-- `VKPPlugin.GetName`: the metadata name, with the executable's base name
as fallback. -/
def GetName (p : VKPPlugin) : String :=
  match p.metadata with
  | some md => md.Name
  | none => filepathBase p.execPath

/-- `LoadedPlugin` from `loader.go` (the Go-native `.so` handle is not
modelled: the claims concern `.vkp` plugins). -/
structure LoadedPlugin where
  Plugin : VKPPlugin
  Path : String
  ExtractDir : String
  deriving DecidableEq, Repr

/-- `VKPLoader`: the in-memory map of loaded plugins and the plugin root
directory. -/
structure VKPLoader where
  loadedPlugins : List (String × LoadedPlugin)
  pluginDir : String
  deriving DecidableEq, Repr

/-- Errors of the `.vkp` load path. -/
inductive LoadError where
  | mkdirFailed
  | extractFailed
  | metadataFailed
  | chmodFailed
  deriving DecidableEq, Repr

/-- `VKPLoader.loadVKPPlugin`, with filesystem effects as parameters:
`mkdirOk` and `chmodOk` are the outcomes of `os.MkdirAll` and `os.Chmod`,
and `archive` is the decoded content of the `.vkp` file (`none` when opening,
decompressing or untarring fails).  On success a supervisor bound to
`<extractDir>/plugin` and the metadata is stored in the loader map under
`metadata.Name` (`GetName`), silently overwriting any existing entry; no
name-conflict check is performed. -/
def loadVKPPlugin (l : VKPLoader) (path : String) (mkdirOk : Bool)
    (archive : Option (List (String × FileData))) (chmodOk : Bool) :
    VKPLoader × Except LoadError VKPPlugin :=
  let extractDir := l.pluginDir ++ "/temp/" ++ filepathBase path ++ "_extracted"
  if mkdirOk = false then (l, Except.error LoadError.mkdirFailed)
  else
    match archive with
    | none => (l, Except.error LoadError.extractFailed)
    | some entries =>
      match readPluginMetadata (extractVKP entries) with
      | none => (l, Except.error LoadError.metadataFailed)
      | some metadata =>
        if chmodOk = false then (l, Except.error LoadError.chmodFailed)
        else
          let vkpPlugin : VKPPlugin :=
            { execPath := extractDir ++ "/plugin", metadata := some metadata,
              cmd := none }
          let entry : LoadedPlugin :=
            { Plugin := vkpPlugin, Path := path, ExtractDir := extractDir }
          ({ l with loadedPlugins :=
              setKey l.loadedPlugins (GetName vkpPlugin) entry },
            Except.ok vkpPlugin)

/-- `VKPLoader.GetPlugin`: the plugin and an existence flag, as an option. -/
def GetPlugin (l : VKPLoader) (name : String) : Option VKPPlugin :=
  match lookupKey l.loadedPlugins name with
  | none => none
  | some lp => some lp.Plugin

/-- `VKPLoader.UnloadPlugin`: absent name returns the not-loaded error and
changes nothing; otherwise the child is killed and the extraction directory
removed — both best-effort, their outcomes `killOk` and `removeOk` are only
logged — the map entry is deleted and `nil` is returned. -/
def UnloadPlugin (l : VKPLoader) (name : String) (killOk removeOk : Bool) :
    VKPLoader × Except String Unit :=
  match lookupKey l.loadedPlugins name with
  | none => (l, Except.error ("plugin '" ++ name ++ "' not loaded"))
  | some _ =>
    ({ l with loadedPlugins := delKey l.loadedPlugins name }, Except.ok ())

/-- `VKPPlugin.Initialize`: the command is stored in `p.cmd` **before**
`cmd.Start()` runs; `spawnResult` is the environment's outcome of the start
(`some pid` on success, `none` when spawning fails).  On failure the wrapped
`SpawnFailed` error is returned with the fresh, process-less command left in
place. -/
def Initialize (p : VKPPlugin) (spawnResult : Option Nat) :
    VKPPlugin × Except String Unit :=
  match spawnResult with
  | none =>
    ({ p with cmd := some { Process := none } },
      Except.error "failed to start VKP plugin")
  | some pid =>
    ({ p with cmd := some { Process := some pid } }, Except.ok ())

/-- `VKPPlugin.Health`: `stopped` when no process handle is attached,
otherwise `healthy`/`unhealthy` according to the signal-0 probe. -/
def Health (p : VKPPlugin) (probeOk : Bool) : String :=
  match p.cmd with
  | none => "stopped"
  | some c =>
    match c.Process with
    | none => "stopped"
    | some _ => if probeOk then "healthy" else "unhealthy"

lemma lookupKey_eq_none {α : Type} (m : List (String × α)) (key : String)
    (h : ∀ e ∈ m, e.1 ≠ key) : lookupKey m key = none := by
  induction m with
  | nil => rfl
  | cons p rest ih =>
    obtain ⟨pk, pv⟩ := p
    rw [lookupKey, if_neg (h (pk, pv) (by simp))]
    exact ih (fun e he => h e (List.mem_cons_of_mem _ he))

/-- C5: the metadata round-trip through the package format is broken in the
code: the packager stores the serialized metadata under the archive member
name `metadata.json`, while the loader reads `<dir>/plugin.json`; loading a
freshly packaged archive therefore fails at the metadata-read step (for any
metadata value, and any include files not named `plugin.json`) instead of
returning metadata equal to the original. -/
theorem C5_package_load_roundtrip_broken
    (meta : PluginMetadata) (binary : List Nat)
    (includeFiles : List (String × FileData))
    (hinc : ∀ e ∈ includeFiles, e.1 ≠ "plugin.json") :
    readPluginMetadata (extractVKP (createVKPPackage meta binary includeFiles)) =
      none ∧
    lookupKey (createVKPPackage meta binary includeFiles) "metadata.json" =
      some (FileData.metaJson (normalizeMetadata meta)) ∧
    (∀ l path,
      (loadVKPPlugin l path true
          (some (createVKPPackage meta binary includeFiles)) true).2 =
        Except.error LoadError.metadataFailed) := by
  have hnone :
      lookupKey (createVKPPackage meta binary includeFiles) "plugin.json" =
        none := by
    apply lookupKey_eq_none
    intro e he
    simp only [createVKPPackage, List.mem_cons] at he
    rcases he with he | he | he
    · rw [he]
      show ("plugin" : String) ≠ "plugin.json"
      decide
    · rw [he]
      show ("metadata.json" : String) ≠ "plugin.json"
      decide
    · exact hinc e he
  have hread :
      readPluginMetadata
        (extractVKP (createVKPPackage meta binary includeFiles)) = none := by
    rw [readPluginMetadata, extractVKP, hnone]
  refine ⟨hread, ?_, ?_⟩
  · rw [createVKPPackage, lookupKey, if_neg (by decide), lookupKey, if_pos rfl]
  · intro l path
    have hread2 :
        readPluginMetadata (createVKPPackage meta binary includeFiles) =
          none := hread
    simp [loadVKPPlugin, extractVKP, hread2]

/-- Witness for C5 at a concrete metadata value and the standard (no extra
files) package. -/
theorem C5_package_load_roundtrip_broken_witness :
    readPluginMetadata
      (extractVKP (createVKPPackage
        { Name := "test", Version := "1.0.0", Description := "d",
          Author := "a", License := "MIT", Dependencies := [],
          APIVersion := "v1", MinGatewayVersion := "1.0.0",
          Standalone := true, ConfigSchema := [] } [7] [])) = none :=
  (C5_package_load_roundtrip_broken
    { Name := "test", Version := "1.0.0", Description := "d",
      Author := "a", License := "MIT", Dependencies := [],
      APIVersion := "v1", MinGatewayVersion := "1.0.0",
      Standalone := true, ConfigSchema := [] } [7] [] (by simp)).1

/-- Metadata of version `1.0.0` of service `a` (sample values). -/
def mdOldA : PluginMetadata :=
  { Name := "a", Version := "1.0.0", Description := "", Author := "",
    License := "", Dependencies := [], APIVersion := "v1",
    MinGatewayVersion := "", Standalone := true, ConfigSchema := [] }

/-- Metadata of version `1.0.1` of service `a` (sample values). -/
def mdNewA : PluginMetadata :=
  { Name := "a", Version := "1.0.1", Description := "", Author := "",
    License := "", Dependencies := [], APIVersion := "v1",
    MinGatewayVersion := "", Standalone := true, ConfigSchema := [] }

/-- The supervisor of the already-loaded version of `a`. -/
def oldPluginA : VKPPlugin :=
  { execPath := "plugins/temp/old_extracted/plugin",
    metadata := some mdOldA, cmd := none }

/-- A loader-map entry for the already-loaded version of `a`. -/
def oldEntryA : LoadedPlugin :=
  { Plugin := oldPluginA, Path := "old.vkp",
    ExtractDir := "plugins/temp/old_extracted" }

/-- A hand-built archive holding the new version of `a` (its `plugin.json`
member is what the loader reads). -/
def newArchiveA : List (String × FileData) :=
  [("plugin", FileData.bytes []), ("plugin.json", FileData.metaJson mdNewA)]

/-- The supervisor produced by loading `newArchiveA` from `new.vkp` under
plugin root `plugins`. -/
def newPluginA : VKPPlugin :=
  { execPath := "plugins/temp/new.vkp_extracted/plugin",
    metadata := some mdNewA, cmd := none }

/-- C6 (amended): when loading a `.vkp` archive succeeds, the plugin is
registered in the loader's map under its metadata name, silently overwriting
any existing entry with that name; no `NameConflict` error exists, and the
outcome of the load never depends on the current content of the map. -/
theorem C6_load_registers_overwriting
    (l : VKPLoader) (path : String) (mkdirOk : Bool)
    (archive : Option (List (String × FileData))) (chmodOk : Bool)
    (p : VKPPlugin)
    (h : (loadVKPPlugin l path mkdirOk archive chmodOk).2 = Except.ok p) :
    lookupKey (loadVKPPlugin l path mkdirOk archive chmodOk).1.loadedPlugins
        (GetName p) =
      some { Plugin := p, Path := path,
             ExtractDir := l.pluginDir ++ "/temp/" ++ filepathBase path ++
               "_extracted" } ∧
    (∀ name, name ≠ GetName p →
      lookupKey (loadVKPPlugin l path mkdirOk archive chmodOk).1.loadedPlugins
          name =
        lookupKey l.loadedPlugins name) ∧
    (loadVKPPlugin l path mkdirOk archive chmodOk).2 =
      (loadVKPPlugin { loadedPlugins := [], pluginDir := l.pluginDir }
        path mkdirOk archive chmodOk).2 := by
  rw [loadVKPPlugin.eq_def] at h ⊢
  split at h
  · exact absurd h (by simp)
  · rename_i hmk
    split at h
    · exact absurd h (by simp)
    · rename_i entries
      split at h
      · exact absurd h (by simp)
      · rename_i metadata hread
        split at h
        · exact absurd h (by simp)
        · rename_i hch
          injection h with h'
          subst h'
          simp only [hread, if_neg hmk, if_neg hch]
          refine ⟨?_, ?_, ?_⟩
          · rw [lookupKey_setKey, if_pos rfl]
          · intro name hname
            rw [lookupKey_setKey, if_neg (fun he => hname he.symm)]
          · rw [loadVKPPlugin.eq_def]
            simp only [hread, if_neg hmk, if_neg hch]

/-- The loader state already holding service `a`. -/
def loaderA : VKPLoader :=
  { loadedPlugins := [("a", oldEntryA)], pluginDir := "plugins" }

/-- Counterexample to C6 as stated: loading an archive whose metadata name
`a` is already present in the loader map succeeds (no `NameConflict` error)
and replaces the map entry for `a`. -/
theorem C6_counterexample :
    ((loadVKPPlugin loaderA "new.vkp" true (some newArchiveA) true).2 =
      Except.ok newPluginA) ∧
    lookupKey (loadVKPPlugin loaderA "new.vkp" true
        (some newArchiveA) true).1.loadedPlugins "a" ≠ some oldEntryA := by
  refine ⟨rfl, by decide⟩

/-- Witness for C6 (amended): the concrete load of `newArchiveA` registers
the new supervisor under its metadata name `a`. -/
theorem C6_load_registers_overwriting_witness :
    lookupKey (loadVKPPlugin { loadedPlugins := [], pluginDir := "plugins" }
        "new.vkp" true (some newArchiveA) true).1.loadedPlugins "a" =
      some { Plugin := newPluginA, Path := "new.vkp",
             ExtractDir := "plugins/temp/new.vkp_extracted" } := by
  have h := (C6_load_registers_overwriting
    { loadedPlugins := [], pluginDir := "plugins" } "new.vkp" true
    (some newArchiveA) true newPluginA rfl).1
  have hname : GetName newPluginA = "a" := by decide
  rw [hname] at h
  rw [h]
  decide

/-! ## `Initialize` and `Health` of the supervisor (claim C8) -/

/-- C8 (amended): on a failed spawn, `Initialize` returns the `SpawnFailed`
error and stores no process handle — the health probe still reports
`stopped`, and the executable path and metadata are untouched — but the `cmd`
field has been overwritten with the fresh, never-started command, so it is
not the same value as before the call (it changes from `none` to a command
without a process). -/
theorem C8_spawn_failure_keeps_no_process (p : VKPPlugin) :
    (Initialize p none).2 = Except.error "failed to start VKP plugin" ∧
    (Initialize p none).1.cmd = some { Process := none } ∧
    (∀ probeOk, Health (Initialize p none).1 probeOk = "stopped") ∧
    (Initialize p none).1.execPath = p.execPath ∧
    (Initialize p none).1.metadata = p.metadata := by
  exact ⟨rfl, rfl, fun probeOk => rfl, rfl, rfl⟩

/-- A supervisor in the `Extracted` state: no command attached yet. -/
def extractedX : VKPPlugin :=
  { execPath := "plugins/temp/x_extracted/plugin",
    metadata := none, cmd := none }

/-- Counterexample to C8 as stated: for a plugin in the `Extracted` state,
a failed `Initialize` leaves the supervisor's process-handle field different
from what it was before the call. -/
theorem C8_counterexample :
    (Initialize extractedX none).1.cmd ≠ extractedX.cmd := by
  decide

/-! ## `UnloadPlugin` (claim C10) -/

/-- C10: for a name present in the loader map, `UnloadPlugin` returns `nil`
and removes the entry — regardless of whether killing the child or removing
the extraction directory succeeds — so `GetPlugin` afterwards reports
not-present, and other entries are untouched; for an absent name it returns
the not-loaded error and leaves the loader unchanged. -/
theorem C10_unload_always_succeeds (l : VKPLoader) (name : String)
    (killOk removeOk : Bool) :
    ((lookupKey l.loadedPlugins name).isSome = true →
      (UnloadPlugin l name killOk removeOk).2 = Except.ok () ∧
      lookupKey (UnloadPlugin l name killOk removeOk).1.loadedPlugins name =
        none ∧
      GetPlugin (UnloadPlugin l name killOk removeOk).1 name = none ∧
      (∀ other, other ≠ name →
        lookupKey (UnloadPlugin l name killOk removeOk).1.loadedPlugins other =
          lookupKey l.loadedPlugins other)) ∧
    ((lookupKey l.loadedPlugins name).isSome = false →
      (UnloadPlugin l name killOk removeOk).2 =
        Except.error ("plugin '" ++ name ++ "' not loaded") ∧
      (UnloadPlugin l name killOk removeOk).1 = l) := by
  cases hl : lookupKey l.loadedPlugins name with
  | none =>
    constructor
    · intro hsome
      exact absurd hsome (by simp)
    · intro _
      constructor
      · simp only [UnloadPlugin, hl]
      · simp only [UnloadPlugin, hl]
  | some lp =>
    constructor
    · intro _
      refine ⟨?_, ?_, ?_, ?_⟩
      · simp only [UnloadPlugin, hl]
      · simp only [UnloadPlugin, hl]
        rw [lookupKey_delKey, if_pos rfl]
      · simp [GetPlugin, UnloadPlugin, hl, lookupKey_delKey]
      · intro other hother
        simp only [UnloadPlugin, hl]
        rw [lookupKey_delKey, if_neg (fun he => hother he.symm)]
    · intro hsome
      exact absurd hsome (by simp)

/-- Witness for C10 at a concrete loader holding the entry `a`: unloading
`a` succeeds even when both cleanup steps fail, and the entry is gone. -/
theorem C10_unload_always_succeeds_witness :
    (UnloadPlugin loaderA "a" false false).2 = Except.ok () ∧
    GetPlugin (UnloadPlugin loaderA "a" false false).1 "a" = none := by
  have h := (C10_unload_always_succeeds loaderA "a" false false).1 (by decide)
  exact ⟨h.1, h.2.2.1⟩

/-! ## The `DELETE /remove` management endpoint (claim C7) -/

/-- `PluginInstaller.RemovePlugin`: `os.Stat` the file (missing file is an
error), then `os.Remove` it; `removeOk` is the outcome of the unlink. -/
def RemovePlugin (dir : List String) (filename : String) (removeOk : Bool) :
    List String × Except String Unit :=
  if filename ∈ dir then
    if removeOk then
      (dir.filter (fun g => decide (g ≠ filename)), Except.ok ())
    else (dir, Except.error "remove failed")
  else (dir, Except.error ("plugin file not exists: " ++ filename))

/-- `PluginHandler.RemovePlugin` on `DELETE /remove`: 400 for an unparsable
request body, otherwise every error from the manager's
`RemoveInstalledPlugin` (which delegates to the installer's `RemovePlugin`)
is mapped to HTTP 500, and success to 200. -/
def removePluginHandler (dir : List String) (body : Option String)
    (removeOk : Bool) : Nat :=
  match body with
  | none => 400
  | some filename =>
    match (RemovePlugin dir filename removeOk).2 with
    | Except.error _ => 500
    | Except.ok _ => 200

/-- Counterexample to C7 as stated: removing a file that is not installed
returns HTTP 500, not the claimed 404. -/
theorem C7_counterexample :
    removePluginHandler [] (some "missing.vkp") true = 500 ∧
    ¬ removePluginHandler [] (some "missing.vkp") true = 404 := by
  refine ⟨by decide, by decide⟩

/-- C7 (amended): the endpoint returns 500 both when the named plugin file
does not exist in the install directory and when the unlink fails, 200 when
the file is removed (after which it is gone from the directory), and 400
when the request body does not bind; no input produces 404. -/
theorem C7_remove_status_codes (dir : List String) (filename : String)
    (removeOk : Bool) :
    (filename ∉ dir →
      removePluginHandler dir (some filename) removeOk = 500) ∧
    (filename ∈ dir → removeOk = false →
      removePluginHandler dir (some filename) removeOk = 500) ∧
    (filename ∈ dir → removeOk = true →
      removePluginHandler dir (some filename) removeOk = 200 ∧
      filename ∉ (RemovePlugin dir filename true).1) ∧
    removePluginHandler dir none removeOk = 400 ∧
    removePluginHandler dir (some filename) removeOk ≠ 404 := by
  refine ⟨?_, ?_, ?_, rfl, ?_⟩
  · intro hmem
    simp [removePluginHandler, RemovePlugin, hmem]
  · intro hmem hrem
    subst hrem
    simp [removePluginHandler, RemovePlugin, hmem]
  · intro hmem hrem
    subst hrem
    constructor
    · simp [removePluginHandler, RemovePlugin, hmem]
    · simp only [RemovePlugin, if_pos hmem, if_pos rfl]
      intro hin
      have := List.of_mem_filter hin
      simp at this
  · simp only [removePluginHandler, RemovePlugin]
    by_cases hmem : filename ∈ dir
    · by_cases hrem : removeOk = true
      · subst hrem
        simp [hmem]
      · have : removeOk = false := by
          cases removeOk
          · rfl
          · exact absurd rfl hrem
        subst this
        simp [hmem]
    · simp [hmem]

/-- Witness for C7 (amended) at a concrete directory: removing the installed
file `a.vkp` returns 200 and deletes it; removing it from the empty
directory returns 500. -/
theorem C7_remove_status_codes_witness :
    (removePluginHandler ["a.vkp"] (some "a.vkp") true = 200 ∧
      "a.vkp" ∉ (RemovePlugin ["a.vkp"] "a.vkp" true).1) ∧
    removePluginHandler [] (some "a.vkp") true = 500 := by
  constructor
  · exact (C7_remove_status_codes ["a.vkp"] "a.vkp" true).2.2.1
      (by decide) rfl
  · exact (C7_remove_status_codes [] "a.vkp" true).1 (by decide)
